import Mathlib

/-
Shallow embedding of the ephemeral content store of src/app.py
(SendingInfo). Time is modelled as seconds since the epoch (Nat);
the upload directory is modelled as the list of blob names present;
the two sqlite tables are lists of records. Each Flask handler is
embedded as a pure function from the request parameters and the
current store state to a result and the next state.
-/

namespace SendingInfo

/-- Time-to-live: 24 hours, in seconds (timedelta(hours=24)). -/
def ttl : Nat := 24 * 60 * 60

/-- Row of the sqlite `files` table (app.py init_db). -/
structure FileRecord where
  id : Nat
  code : String
  filename : String
  createdAt : Nat
  maxDownloads : Int
  currentDownloads : Int
deriving DecidableEq

/-- Row of the sqlite `pastes` table (app.py init_db). -/
structure PasteRecord where
  id : Nat
  code : String
  content : String
  lang : String
  createdAt : Nat
  maxViews : Int
  currentViews : Int
deriving DecidableEq

/-- The persistent state seen by the handlers: the two tables plus the
set of blob file names present in UPLOAD_FOLDER. -/
structure StoreState where
  files : List FileRecord
  pastes : List PasteRecord
  blobs : List String
deriving DecidableEq

/-- Blob name derived in app.py as f-string code underscore filename
(os.path.join(UPLOAD_FOLDER, ...)). -/
def blobName (code filename : String) : String := code ++ "_" ++ filename

/-- SELECT ... FROM files WHERE code=? followed by fetchone(). -/
def findFile (code : String) (s : StoreState) : Option FileRecord :=
  s.files.find? (fun r => r.code == code)

/-- SELECT ... FROM pastes WHERE code=? followed by fetchone(). -/
def findPaste (code : String) (s : StoreState) : Option PasteRecord :=
  s.pastes.find? (fun r => r.code == code)

/-- os.path.exists on the derived blob path. -/
def blobExists (path : String) (s : StoreState) : Bool :=
  s.blobs.contains path

/-- os.remove on the blob path (guarded in app.py by an exists check,
so removing an absent blob is a no-op). -/
def removeBlob (path : String) (s : StoreState) : StoreState :=
  { s with blobs := s.blobs.filter (fun b => b != path) }

/-- DELETE FROM files WHERE id=?. -/
def deleteFileById (fid : Nat) (s : StoreState) : StoreState :=
  { s with files := s.files.filter (fun r => r.id != fid) }

/-- DELETE FROM pastes WHERE id=?. -/
def deletePasteById (pid : Nat) (s : StoreState) : StoreState :=
  { s with pastes := s.pastes.filter (fun r => r.id != pid) }

/-- UPDATE files SET current_downloads=? WHERE id=?. -/
def setFileDownloads (fid : Nat) (n : Int) (s : StoreState) : StoreState :=
  { s with files :=
      s.files.map (fun r => if r.id = fid then { r with currentDownloads := n } else r) }

/-- UPDATE pastes SET current_views=? WHERE id=?. -/
def setPasteViews (pid : Nat) (n : Int) (s : StoreState) : StoreState :=
  { s with pastes :=
      s.pastes.map (fun r => if r.id = pid then { r with currentViews := n } else r) }

/-- Outcome of the /download/<code> handler: 404 invalid code, 410
expired, or the file response. -/
inductive DlResult where
  | notFound
  | expired
  | served (path : String)
deriving DecidableEq

/-- The deferred deletion scheduled by download_file when the new
count reaches max_downloads (the _delete_after_send thread). -/
structure DeferredDelete where
  fid : Nat
  path : String
deriving DecidableEq

/-- Handler download_file (app.py lines 577-635). Returns the HTTP
outcome, the state after the immediate database effects, and the
deferred deletion scheduled to run after the response, if any. -/
def download_file (now : Nat) (code : String) (s : StoreState) :
    DlResult × StoreState × Option DeferredDelete :=
  match findFile code s with
  | none => (.notFound, s, none)
  | some row =>
    let path := blobName code row.filename
    if now ≥ row.createdAt + ttl ∨ blobExists path s = false then
      (.expired, deleteFileById row.id (removeBlob path s), none)
    else
      let newCount := row.currentDownloads + 1
      let s1 := setFileDownloads row.id newCount s
      if newCount ≥ row.maxDownloads then
        (.served path, s1, some ⟨row.id, path⟩)
      else
        (.served path, s1, none)

/-- Body of the _delete_after_send background thread: remove the blob
if it still exists, then delete the metadata row. -/
def run_deferred (d : DeferredDelete) (s : StoreState) : StoreState :=
  deleteFileById d.fid (removeBlob d.path s)

/-- Outcome of a paste consumption: 404 unknown code, row found but
deleted as expired or exhausted, or the content served. -/
inductive PasteResult where
  | notFound
  | expired
  | served (content lang : String)
deriving DecidableEq

/-- Handler view_paste (app.py lines 687-718). On the expired or
exhausted branch it renders paste_not_found with status 404. -/
def view_paste (now : Nat) (code : String) (s : StoreState) :
    PasteResult × StoreState :=
  match findPaste code s with
  | none => (.notFound, s)
  | some row =>
    if now ≥ row.createdAt + ttl ∨ row.currentViews ≥ row.maxViews then
      (.expired, deletePasteById row.id s)
    else
      (.served row.content row.lang,
       setPasteViews row.id (row.currentViews + 1) s)

/-- Outcome of the /raw/<code> handler. -/
inductive RawResult where
  | notFound
  | expired
  | served (content : String)
deriving DecidableEq

/-- Handler raw_paste (app.py lines 721-750). Returns 410 on the
expired or exhausted branch. -/
def raw_paste (now : Nat) (code : String) (s : StoreState) :
    RawResult × StoreState :=
  match findPaste code s with
  | none => (.notFound, s)
  | some row =>
    if now ≥ row.createdAt + ttl ∨ row.currentViews ≥ row.maxViews then
      (.expired, deletePasteById row.id s)
    else
      (.served row.content,
       setPasteViews row.id (row.currentViews + 1) s)

/-- Clamp applied to the requested max uses in upload_file and
create_paste: max(1, min(value, 100)). -/
def clampUses (m : Int) : Int := max 1 (min m 100)

/-- Request data of the /upload handler. hasFile models the truthiness
of request.files.get, agreedTerms the string comparison on the
agreed_terms form field, maxDownloadsField the outcome of int() on the
max_downloads form field (none models a ValueError; the missing-field
default string 1 parses to some 1), filename the secure_filename
result. -/
structure UploadReq where
  hasFile : Bool
  agreedTerms : Bool
  maxDownloadsField : Option Int
  filename : String

/-- Outcome of the /upload handler. -/
inductive UploadResult where
  | errNoFile
  | errTerms
  | ok (code : String) (maxDownloads : Int)
deriving DecidableEq

/-- Handler upload_file (app.py lines 532-574). The fresh code from
six_digit_code and the AUTOINCREMENT row id are parameters. The blob
write (file.save) happens before the INSERT, as in the source. -/
def upload_file (req : UploadReq) (now : Nat) (newId : Nat)
    (code : String) (s : StoreState) : UploadResult × StoreState :=
  if req.hasFile = false then (.errNoFile, s)
  else if req.agreedTerms = false then (.errTerms, s)
  else
    let md := clampUses (req.maxDownloadsField.getD 1)
    let path := blobName code req.filename
    let s1 := { s with blobs := path :: s.blobs }
    let s2 := { s1 with files :=
      s1.files ++ [⟨newId, code, req.filename, now, md, 0⟩] }
    (.ok code md, s2)

/-- Python-style or-default on an optional string field: a missing or
empty string falls back to the default. -/
def pyOr (v : Option String) (d : String) : String :=
  match v with
  | none => d
  | some x => if x = "" then d else x

/-- Python str.strip: drop leading and trailing whitespace. -/
def pyStrip (s : String) : String :=
  ⟨((s.data.dropWhile Char.isWhitespace).reverse.dropWhile Char.isWhitespace).reverse⟩

/-- Request data of the /create_paste handler (JSON body). -/
structure PasteReq where
  content : Option String
  lang : Option String
  maxViewsField : Option Int

/-- Outcome of the /create_paste handler. -/
inductive CreatePasteResult where
  | errEmpty
  | ok (code : String) (maxViews : Int)
deriving DecidableEq

/-- Handler create_paste (app.py lines 649-684). Stores the stripped
content; rejects when the stripped content is empty, before any code
generation or insertion. -/
def create_paste (req : PasteReq) (now : Nat) (newId : Nat)
    (code : String) (s : StoreState) : CreatePasteResult × StoreState :=
  let content := pyStrip (pyOr req.content "")
  let lang := pyStrip (pyOr req.lang "plaintext")
  let mv := clampUses (req.maxViewsField.getD 1)
  if content = "" then (.errEmpty, s)
  else
    (.ok code mv, { s with pastes :=
      s.pastes ++ [⟨newId, code, content, lang, now, mv, 0⟩] })

/-- File loop of one cleanup_job pass (app.py lines 183-204): iterates
the snapshot of the files table, and deletes blob and row when the
record is past TTL or its blob is missing. -/
def cleanup_files (now : Nat) (rows : List FileRecord) (s : StoreState) :
    StoreState :=
  match rows with
  | [] => s
  | r :: rest =>
    let path := blobName r.code r.filename
    if now ≥ r.createdAt + ttl ∨ blobExists path s = false then
      cleanup_files now rest (deleteFileById r.id (removeBlob path s))
    else
      cleanup_files now rest s

/-- Paste loop of one cleanup_job pass (app.py lines 207-219): deletes
rows past TTL; paste payloads are inline so no blob handling. -/
def cleanup_pastes (now : Nat) (rows : List PasteRecord) (s : StoreState) :
    StoreState :=
  match rows with
  | [] => s
  | r :: rest =>
    if now ≥ r.createdAt + ttl then
      cleanup_pastes now rest (deletePasteById r.id s)
    else
      cleanup_pastes now rest s

/-- One full sweep pass of cleanup_job: the file loop over the files
snapshot, then the paste loop over the pastes snapshot. -/
def cleanup_pass (now : Nat) (s : StoreState) : StoreState :=
  let s1 := cleanup_files now s.files s
  cleanup_pastes now s1.pastes s1

/-- Loop body shared by six_digit_code and six_char_code (app.py lines
290-316): draw the next candidate from the random stream, query the
table for it, return it when free, otherwise loop. The source loop is
a bare while True; the fuel argument bounds how many iterations we
observe, and none means the loop has not returned within that many
iterations. -/
def code_gen_loop (existsCode : String → Bool) (stream : Nat → String) :
    Nat → Nat → Option String
  | 0, _ => none
  | fuel + 1, i =>
    let c := stream i
    if existsCode c then code_gen_loop existsCode stream fuel (i + 1)
    else some c

/-- Fault injected while the sweep processes one file record: fsErr
models os.remove raising (caught by the inner try block around it);
dbErr models the DELETE or commit raising (propagates out of the
per-record loop to the pass-level handler). -/
inductive SweepFault where
  | fsErr
  | dbErr
deriving DecidableEq

/-- File loop of cleanup_job with injected faults. The second
component is true when an uncaught exception aborted the loop; the
pass-level try block absorbs it, so the process survives and the next
interval runs again. On fsErr the blob removal fails silently and the
metadata row is still deleted; on dbErr the blob removal has already
happened but the row deletion raises, ending the pass. -/
def cleanup_files_faulty (now : Nat)
    (rows : List (FileRecord × Option SweepFault)) (s : StoreState) :
    StoreState × Bool :=
  match rows with
  | [] => (s, false)
  | (r, fault) :: rest =>
    let path := blobName r.code r.filename
    if now ≥ r.createdAt + ttl ∨ blobExists path s = false then
      let s1 := if fault = some SweepFault.fsErr then s else removeBlob path s
      if fault = some SweepFault.dbErr then (s1, true)
      else cleanup_files_faulty now rest (deleteFileById r.id s1)
    else
      cleanup_files_faulty now rest s

/-- Progress of one in-flight view_paste request, split at the
database statement boundaries of the source: the SELECT plus the
expiry and quota check form one step, and the UPDATE that writes the
absolute new count forms a second, separate step. -/
inductive ReqPhase where
  | start
  | pendingWrite (pid : Nat) (newCount : Int) (content lang : String)
  | done (res : PasteResult)
deriving DecidableEq

/-- Advance request k of a pool of concurrent view_paste requests for
the same code by one database step. -/
def stepView (now : Nat) (code : String)
    (st : StoreState × List ReqPhase) (k : Nat) :
    StoreState × List ReqPhase :=
  let s := st.1
  let reqs := st.2
  match reqs.get? k with
  | none => (s, reqs)
  | some ReqPhase.start =>
    match findPaste code s with
    | none => (s, reqs.set k (.done .notFound))
    | some row =>
      if now ≥ row.createdAt + ttl ∨ row.currentViews ≥ row.maxViews then
        (deletePasteById row.id s, reqs.set k (.done .expired))
      else
        (s, reqs.set k
          (.pendingWrite row.id (row.currentViews + 1) row.content row.lang))
  | some (ReqPhase.pendingWrite pid n content lang) =>
    (setPasteViews pid n s, reqs.set k (.done (.served content lang)))
  | some (ReqPhase.done _) => (s, reqs)

/-- Run a pool of concurrent view_paste requests under an explicit
interleaving: the schedule lists which request takes the next step. -/
def runSched (now : Nat) (code : String) (sched : List Nat)
    (st : StoreState × List ReqPhase) : StoreState × List ReqPhase :=
  sched.foldl (stepView now code) st

/-- True when a paste consumption outcome handed the content over. -/
def PasteResult.isServed : PasteResult → Bool
  | .served _ _ => true
  | _ => false

/-- True when a download outcome handed the file over. -/
def DlResult.isServed : DlResult → Bool
  | .served _ => true
  | _ => false

/-- True when a raw paste outcome handed the content over. -/
def RawResult.isServed : RawResult → Bool
  | .served _ => true
  | _ => false

/-- Concrete store: one file record whose download quota is already
exhausted (currentDownloads = maxDownloads = 1), blob intact, fresh. -/
def exhaustedFileStore : StoreState :=
  ⟨[⟨1, "123456", "a.txt", 0, 1, 1⟩], [], ["123456_a.txt"]⟩

/-- Concrete store: one fresh single-download file record with its
blob intact. -/
def freshFileStore : StoreState :=
  ⟨[⟨1, "123456", "a.txt", 0, 1, 0⟩], [], ["123456_a.txt"]⟩

/-- Concrete store: one fresh single-view paste. -/
def singleUsePasteStore : StoreState :=
  ⟨[], [⟨1, "ABC234", "hello", "plaintext", 0, 1, 0⟩], []⟩

/-- Concrete store: two TTL-expired file records with intact blobs. -/
def twoExpiredFilesStore : StoreState :=
  ⟨[⟨1, "111111", "a", 0, 1, 0⟩, ⟨2, "222222", "b", 0, 1, 0⟩], [],
   ["111111_a", "222222_b"]⟩

/-- The same two expired records paired with sweep faults: the first
hits a database error, the second none. -/
def twoExpiredFaultRows : List (FileRecord × Option SweepFault) :=
  [(⟨1, "111111", "a", 0, 1, 0⟩, some SweepFault.dbErr),
   (⟨2, "222222", "b", 0, 1, 0⟩, none)]

theorem removeBlob_files (path : String) (s : StoreState) :
    (removeBlob path s).files = s.files := rfl

theorem removeBlob_pastes (path : String) (s : StoreState) :
    (removeBlob path s).pastes = s.pastes := rfl

theorem removeBlob_blobs (path : String) (s : StoreState) :
    (removeBlob path s).blobs = s.blobs.filter (fun b => b != path) := rfl

theorem deleteFileById_files (fid : Nat) (s : StoreState) :
    (deleteFileById fid s).files = s.files.filter (fun r => r.id != fid) := rfl

theorem deleteFileById_blobs (fid : Nat) (s : StoreState) :
    (deleteFileById fid s).blobs = s.blobs := rfl

theorem deletePasteById_pastes (pid : Nat) (s : StoreState) :
    (deletePasteById pid s).pastes = s.pastes.filter (fun r => r.id != pid) := rfl

theorem blobExists_iff_mem (path : String) (s : StoreState) :
    blobExists path s = true ↔ path ∈ s.blobs := by
  simp [blobExists, List.elem_iff]

theorem blobExists_false_mono (p : String) (s s2 : StoreState)
    (hsub : ∀ b ∈ s2.blobs, b ∈ s.blobs) (h : blobExists p s = false) :
    blobExists p s2 = false := by
  cases h2 : blobExists p s2 with
  | false => rfl
  | true =>
    have hm : p ∈ s2.blobs := (blobExists_iff_mem p s2).mp h2
    have : blobExists p s = true := (blobExists_iff_mem p s).mpr (hsub p hm)
    rw [this] at h
    exact absurd h (by simp)

theorem find?_filter_none {α : Type} (p q : α → Bool) (l : List α)
    (h : ∀ a ∈ l, p a = true → q a = false) : (l.filter q).find? p = none := by
  rw [List.find?_eq_none]
  intro a ha hpa
  rcases List.mem_filter.mp ha with ⟨hal, haq⟩
  rw [h a hal hpa] at haq
  exact absurd haq (by simp)

theorem findPaste_after_set (l : List PasteRecord) (code : String)
    (p : PasteRecord) (n : Int)
    (h : l.find? (fun r => r.code == code) = some p) :
    (l.map (fun r => if r.id = p.id then { r with currentViews := n } else r)).find?
      (fun r => r.code == code) = some { p with currentViews := n } := by
  induction l with
  | nil => simp at h
  | cons r rest ih =>
    by_cases hc : (r.code == code) = true
    · simp only [List.find?, hc] at h
      have hrp : r = p := by injection h
      subst hrp
      simp [List.find?, hc]
    · rw [Bool.not_eq_true] at hc
      simp only [List.find?, hc] at h
      have hmap := ih h
      by_cases hid : r.id = p.id
      · simp only [List.map_cons, List.find?, hid, if_pos]
        simp [hc, hmap]
      · simp only [List.map_cons, List.find?, if_neg hid]
        simp [hc, hmap]

theorem findFile_after_set (l : List FileRecord) (code : String)
    (p : FileRecord) (n : Int)
    (h : l.find? (fun r => r.code == code) = some p) :
    (l.map (fun r => if r.id = p.id then { r with currentDownloads := n } else r)).find?
      (fun r => r.code == code) = some { p with currentDownloads := n } := by
  induction l with
  | nil => simp at h
  | cons r rest ih =>
    by_cases hc : (r.code == code) = true
    · simp only [List.find?, hc] at h
      have hrp : r = p := by injection h
      subst hrp
      simp [List.find?, hc]
    · rw [Bool.not_eq_true] at hc
      simp only [List.find?, hc] at h
      have hmap := ih h
      by_cases hid : r.id = p.id
      · simp only [List.map_cons, List.find?, hid, if_pos]
        simp [hc, hmap]
      · simp only [List.map_cons, List.find?, if_neg hid]
        simp [hc, hmap]

theorem cleanup_files_files_mem (now : Nat) (rows : List FileRecord)
    (s : StoreState) :
    ∀ r2 ∈ (cleanup_files now rows s).files, r2 ∈ s.files := by
  induction rows generalizing s with
  | nil => intro r2 h2; simpa [cleanup_files] using h2
  | cons r rest ih =>
    intro r2 h2
    simp only [cleanup_files] at h2
    split at h2
    · have h3 := ih _ r2 h2
      rw [deleteFileById_files, removeBlob_files] at h3
      exact (List.mem_filter.mp h3).1
    · exact ih _ r2 h2

theorem cleanup_files_blobs_mem (now : Nat) (rows : List FileRecord)
    (s : StoreState) :
    ∀ b ∈ (cleanup_files now rows s).blobs, b ∈ s.blobs := by
  induction rows generalizing s with
  | nil => intro b h2; simpa [cleanup_files] using h2
  | cons r rest ih =>
    intro b h2
    simp only [cleanup_files] at h2
    split at h2
    · have h3 := ih _ b h2
      rw [deleteFileById_blobs, removeBlob_blobs] at h3
      exact (List.mem_filter.mp h3).1
    · exact ih _ b h2

theorem cleanup_files_pastes_eq (now : Nat) (rows : List FileRecord)
    (s : StoreState) :
    (cleanup_files now rows s).pastes = s.pastes := by
  induction rows generalizing s with
  | nil => simp [cleanup_files]
  | cons r rest ih =>
    simp only [cleanup_files]
    split
    · rw [ih]; rfl
    · exact ih _

theorem cleanup_pastes_files_eq (now : Nat) (rows : List PasteRecord)
    (s : StoreState) :
    (cleanup_pastes now rows s).files = s.files := by
  induction rows generalizing s with
  | nil => simp [cleanup_pastes]
  | cons r rest ih =>
    simp only [cleanup_pastes]
    split
    · rw [ih]; rfl
    · exact ih _

theorem cleanup_pastes_blobs_eq (now : Nat) (rows : List PasteRecord)
    (s : StoreState) :
    (cleanup_pastes now rows s).blobs = s.blobs := by
  induction rows generalizing s with
  | nil => simp [cleanup_pastes]
  | cons r rest ih =>
    simp only [cleanup_pastes]
    split
    · rw [ih]; rfl
    · exact ih _

theorem cleanup_pastes_pastes_mem (now : Nat) (rows : List PasteRecord)
    (s : StoreState) :
    ∀ p2 ∈ (cleanup_pastes now rows s).pastes, p2 ∈ s.pastes := by
  induction rows generalizing s with
  | nil => intro p2 h2; simpa [cleanup_pastes] using h2
  | cons r rest ih =>
    intro p2 h2
    simp only [cleanup_pastes] at h2
    split at h2
    · have h3 := ih _ p2 h2
      rw [deletePasteById_pastes] at h3
      exact (List.mem_filter.mp h3).1
    · exact ih _ p2 h2

theorem cleanup_files_expired_del (now : Nat) (rows : List FileRecord)
    (s : StoreState) :
    ∀ r ∈ rows, now ≥ r.createdAt + ttl →
      ∀ r2 ∈ (cleanup_files now rows s).files, r2.id ≠ r.id := by
  induction rows generalizing s with
  | nil => intro r hr; cases hr
  | cons r0 rest ih =>
    intro r hr hexp r2 h2
    rcases List.mem_cons.mp hr with heq | hmem
    · subst heq
      simp only [cleanup_files] at h2
      rw [if_pos (Or.inl hexp)] at h2
      have h3 := cleanup_files_files_mem _ _ _ r2 h2
      rw [deleteFileById_files, removeBlob_files] at h3
      have h4 := (List.mem_filter.mp h3).2
      simpa using h4
    · simp only [cleanup_files] at h2
      split at h2
      · exact ih _ r hmem hexp r2 h2
      · exact ih _ r hmem hexp r2 h2

theorem cleanup_files_missing_del (now : Nat) (rows : List FileRecord)
    (s : StoreState) :
    ∀ r ∈ rows, blobExists (blobName r.code r.filename) s = false →
      ∀ r2 ∈ (cleanup_files now rows s).files, r2.id ≠ r.id := by
  induction rows generalizing s with
  | nil => intro r hr; cases hr
  | cons r0 rest ih =>
    intro r hr hmiss r2 h2
    rcases List.mem_cons.mp hr with heq | hmem
    · subst heq
      simp only [cleanup_files] at h2
      rw [if_pos (Or.inr hmiss)] at h2
      have h3 := cleanup_files_files_mem _ _ _ r2 h2
      rw [deleteFileById_files, removeBlob_files] at h3
      have h4 := (List.mem_filter.mp h3).2
      simpa using h4
    · simp only [cleanup_files] at h2
      split at h2
      · refine ih _ r hmem ?_ r2 h2
        refine blobExists_false_mono _ s _ ?_ hmiss
        intro b hb
        rw [deleteFileById_blobs, removeBlob_blobs] at hb
        exact (List.mem_filter.mp hb).1
      · exact ih _ r hmem hmiss r2 h2

theorem cleanup_files_noop (now : Nat) (rows : List FileRecord) (s : StoreState)
    (h : ∀ r ∈ rows, now < r.createdAt + ttl ∧
      blobExists (blobName r.code r.filename) s = true) :
    cleanup_files now rows s = s := by
  induction rows with
  | nil => rfl
  | cons r rest ih =>
    have hr := h r (List.mem_cons_self r rest)
    simp only [cleanup_files]
    rw [if_neg]
    · exact ih (fun a ha => h a (List.mem_cons_of_mem _ ha))
    · rintro (hc | hc)
      · omega
      · rw [hr.2] at hc
        exact absurd hc (by simp)

theorem cleanup_pastes_expired_del (now : Nat) (rows : List PasteRecord)
    (s : StoreState) :
    ∀ p ∈ rows, now ≥ p.createdAt + ttl →
      ∀ p2 ∈ (cleanup_pastes now rows s).pastes, p2.id ≠ p.id := by
  induction rows generalizing s with
  | nil => intro p hp; cases hp
  | cons p0 rest ih =>
    intro p hp hexp p2 h2
    rcases List.mem_cons.mp hp with heq | hmem
    · subst heq
      simp only [cleanup_pastes] at h2
      rw [if_pos hexp] at h2
      have h3 := cleanup_pastes_pastes_mem _ _ _ p2 h2
      rw [deletePasteById_pastes] at h3
      have h4 := (List.mem_filter.mp h3).2
      simpa using h4
    · simp only [cleanup_pastes] at h2
      split at h2
      · exact ih _ p hmem hexp p2 h2
      · exact ih _ p hmem hexp p2 h2

theorem cleanup_pastes_noop (now : Nat) (rows : List PasteRecord) (s : StoreState)
    (h : ∀ p ∈ rows, now < p.createdAt + ttl) :
    cleanup_pastes now rows s = s := by
  induction rows with
  | nil => rfl
  | cons p rest ih =>
    have hp := h p (List.mem_cons_self p rest)
    simp only [cleanup_pastes]
    rw [if_neg (by omega)]
    exact ih (fun a ha => h a (List.mem_cons_of_mem _ ha))

theorem cleanup_files_faulty_files_mem (now : Nat)
    (rows : List (FileRecord × Option SweepFault)) (s : StoreState) :
    ∀ r2 ∈ ((cleanup_files_faulty now rows s).1).files, r2 ∈ s.files := by
  induction rows generalizing s with
  | nil => intro r2 h2; simpa [cleanup_files_faulty] using h2
  | cons e rest ih =>
    intro r2 h2
    simp only [cleanup_files_faulty] at h2
    split at h2
    · split at h2
      · -- dbErr: loop aborts; files untouched in both fsErr and non-fsErr states
        split at h2 <;> simpa using h2
      · have h3 := ih _ r2 h2
        rw [deleteFileById_files] at h3
        have h4 := (List.mem_filter.mp h3).1
        split at h4 <;> simpa using h4
    · exact ih _ r2 h2

theorem cleanup_files_faulty_cons_true (now : Nat) (r : FileRecord)
    (fault : Option SweepFault) (rows : List (FileRecord × Option SweepFault))
    (s : StoreState)
    (hc : now ≥ r.createdAt + ttl ∨
      blobExists (blobName r.code r.filename) s = false)
    (hdb : fault ≠ some SweepFault.dbErr) :
    cleanup_files_faulty now ((r, fault) :: rows) s =
      cleanup_files_faulty now rows (deleteFileById r.id
        (if fault = some SweepFault.fsErr then s
         else removeBlob (blobName r.code r.filename) s)) := by
  simp only [cleanup_files_faulty]
  rw [if_pos hc, if_neg hdb]

theorem cleanup_files_faulty_cons_false (now : Nat) (r : FileRecord)
    (fault : Option SweepFault) (rows : List (FileRecord × Option SweepFault))
    (s : StoreState)
    (hc : ¬ (now ≥ r.createdAt + ttl ∨
      blobExists (blobName r.code r.filename) s = false)) :
    cleanup_files_faulty now ((r, fault) :: rows) s =
      cleanup_files_faulty now rows s := by
  simp only [cleanup_files_faulty]
  rw [if_neg hc]

theorem cleanup_files_faulty_no_db (now : Nat)
    (rows : List (FileRecord × Option SweepFault)) (s : StoreState)
    (hnf : ∀ e ∈ rows, e.2 ≠ some SweepFault.dbErr) :
    (cleanup_files_faulty now rows s).2 = false ∧
    ∀ e ∈ rows, now ≥ e.1.createdAt + ttl →
      ∀ r2 ∈ ((cleanup_files_faulty now rows s).1).files, r2.id ≠ e.1.id := by
  induction rows generalizing s with
  | nil =>
    refine ⟨rfl, ?_⟩
    intro e he; cases he
  | cons e0 rest ih =>
    obtain ⟨r0, f0⟩ := e0
    have hnf0 : f0 ≠ some SweepFault.dbErr :=
      hnf (r0, f0) (List.mem_cons_self _ _)
    have hnfr : ∀ e ∈ rest, e.2 ≠ some SweepFault.dbErr :=
      fun a ha => hnf a (List.mem_cons_of_mem _ ha)
    by_cases hc : now ≥ r0.createdAt + ttl ∨
        blobExists (blobName r0.code r0.filename) s = false
    · rw [cleanup_files_faulty_cons_true now r0 f0 rest s hc hnf0]
      refine ⟨(ih _ hnfr).1, ?_⟩
      intro e he hexp r2 h2
      rcases List.mem_cons.mp he with heq | hmem
      · subst heq
        have h3 := cleanup_files_faulty_files_mem _ _ _ r2 h2
        rw [deleteFileById_files] at h3
        have h4 := (List.mem_filter.mp h3).2
        simpa using h4
      · exact (ih _ hnfr).2 e hmem hexp r2 h2
    · rw [cleanup_files_faulty_cons_false now r0 f0 rest s hc]
      refine ⟨(ih _ hnfr).1, ?_⟩
      intro e he hexp r2 h2
      rcases List.mem_cons.mp he with heq | hmem
      · subst heq
        exact absurd (Or.inl hexp) hc
      · exact (ih _ hnfr).2 e hmem hexp r2 h2

theorem cleanup_files_faulty_db_aborts (now : Nat) (r : FileRecord)
    (rest : List (FileRecord × Option SweepFault)) (s : StoreState)
    (hexp : now ≥ r.createdAt + ttl) :
    cleanup_files_faulty now ((r, some SweepFault.dbErr) :: rest) s =
      (removeBlob (blobName r.code r.filename) s, true) := by
  simp only [cleanup_files_faulty]
  rw [if_pos (Or.inl hexp)]
  simp

theorem setFileDownloads_files (fid : Nat) (n : Int) (s : StoreState) :
    (setFileDownloads fid n s).files =
      s.files.map (fun r => if r.id = fid then { r with currentDownloads := n } else r) :=
  rfl

theorem setFileDownloads_blobs (fid : Nat) (n : Int) (s : StoreState) :
    (setFileDownloads fid n s).blobs = s.blobs := rfl

theorem setPasteViews_pastes (pid : Nat) (n : Int) (s : StoreState) :
    (setPasteViews pid n s).pastes =
      s.pastes.map (fun r => if r.id = pid then { r with currentViews := n } else r) :=
  rfl

theorem filter_idem {α : Type} (p : α → Bool) (l : List α) :
    (l.filter p).filter p = l.filter p :=
  List.filter_eq_self.mpr (fun _ ha => (List.mem_filter.mp ha).2)

theorem setFileDownloads_mem_cases (fid : Nat) (n : Int) (s : StoreState)
    (r2 : FileRecord) (h2 : r2 ∈ (setFileDownloads fid n s).files) :
    ∃ r1 ∈ s.files, r2 = r1 ∨ (r1.id = fid ∧ r2 = { r1 with currentDownloads := n }) := by
  rw [setFileDownloads_files] at h2
  rcases List.mem_map.mp h2 with ⟨r1, hr1, heq⟩
  refine ⟨r1, hr1, ?_⟩
  by_cases hid : r1.id = fid
  · right; exact ⟨hid, by rw [← heq, if_pos hid]⟩
  · left; rw [← heq, if_neg hid]

theorem setPasteViews_mem_cases (pid : Nat) (n : Int) (s : StoreState)
    (p2 : PasteRecord) (h2 : p2 ∈ (setPasteViews pid n s).pastes) :
    ∃ p1 ∈ s.pastes, p2 = p1 ∨ (p1.id = pid ∧ p2 = { p1 with currentViews := n }) := by
  rw [setPasteViews_pastes] at h2
  rcases List.mem_map.mp h2 with ⟨p1, hp1, heq⟩
  refine ⟨p1, hp1, ?_⟩
  by_cases hid : p1.id = pid
  · right; exact ⟨hid, by rw [← heq, if_pos hid]⟩
  · left; rw [← heq, if_neg hid]

/-- Claim C5: for every creation request (file upload or paste), the
stored max-uses equals the requested value clamped into the range 1 to
100 — below 1 stores 1, above 100 stores 100, in-range values are
stored unchanged — and out-of-range values are never rejected: the
creation still succeeds and inserts the record. -/
theorem max_uses_clamped :
    (∀ m : Int, m < 1 → clampUses m = 1) ∧
    (∀ m : Int, 100 < m → clampUses m = 100) ∧
    (∀ m : Int, 1 ≤ m → m ≤ 100 → clampUses m = m) ∧
    (∀ req now newId code s m, req.hasFile = true → req.agreedTerms = true →
      req.maxDownloadsField = some m →
      (upload_file req now newId code s).1 = UploadResult.ok code (clampUses m) ∧
      (⟨newId, code, req.filename, now, clampUses m, 0⟩ : FileRecord) ∈
        ((upload_file req now newId code s).2).files) ∧
    (∀ req now newId code s m, pyStrip (pyOr req.content "") ≠ "" →
      req.maxViewsField = some m →
      (create_paste req now newId code s).1 = CreatePasteResult.ok code (clampUses m) ∧
      (⟨newId, code, pyStrip (pyOr req.content ""), pyStrip (pyOr req.lang "plaintext"),
        now, clampUses m, 0⟩ : PasteRecord) ∈
        ((create_paste req now newId code s).2).pastes) := by
  refine ⟨?_, ?_, ?_, ?_, ?_⟩
  · intro m h; unfold clampUses; omega
  · intro m h; unfold clampUses; omega
  · intro m h1 h2; unfold clampUses; omega
  · intro req now newId code s m h1 h2 h3
    simp only [upload_file, h1, h2, h3]
    refine ⟨rfl, ?_⟩
    simp
  · intro req now newId code s m h1 h2
    simp only [create_paste, h2]
    rw [if_neg h1]
    refine ⟨rfl, ?_⟩
    simp

theorem max_uses_clamped_witness :
    clampUses 250 = 100 ∧
    (upload_file ⟨true, true, some 250, "a.txt"⟩ 0 1 "123456" ⟨[], [], []⟩).1 =
      UploadResult.ok "123456" 100 := by
  have h := max_uses_clamped
  refine ⟨h.2.1 250 (by omega), ?_⟩
  have h2 := (h.2.2.2.1 ⟨true, true, some 250, "a.txt"⟩ 0 1 "123456" ⟨[], [], []⟩ 250
    rfl rfl rfl).1
  rw [h2, h.2.1 250 (by omega)]

/-- Claim C10: a creation request with an empty or missing payload is
rejected atomically — an upload with no file, or without accepted
terms, and a paste whose content strips to empty each return an error
with the store state unchanged: no record inserted, no blob written. -/
theorem empty_creation_rejected :
    (∀ req now newId code s, req.hasFile = false →
      upload_file req now newId code s = (UploadResult.errNoFile, s)) ∧
    (∀ req now newId code s, req.hasFile = true → req.agreedTerms = false →
      upload_file req now newId code s = (UploadResult.errTerms, s)) ∧
    (∀ req now newId code s, pyStrip (pyOr req.content "") = "" →
      create_paste req now newId code s = (CreatePasteResult.errEmpty, s)) := by
  refine ⟨?_, ?_, ?_⟩
  · intro req now newId code s h
    simp [upload_file, h]
  · intro req now newId code s h1 h2
    simp [upload_file, h1, h2]
  · intro req now newId code s h
    simp [create_paste, h]

theorem empty_creation_rejected_witness :
    upload_file ⟨false, true, some 1, "a.txt"⟩ 0 1 "123456" ⟨[], [], []⟩ =
      (UploadResult.errNoFile, ⟨[], [], []⟩) ∧
    create_paste ⟨some "   ", none, some 1⟩ 0 1 "ABC234" ⟨[], [], []⟩ =
      (CreatePasteResult.errEmpty, ⟨[], [], []⟩) := by
  constructor
  · exact empty_creation_rejected.1 ⟨false, true, some 1, "a.txt"⟩ 0 1 "123456"
      ⟨[], [], []⟩ rfl
  · exact empty_creation_rejected.2.2 ⟨some "   ", none, some 1⟩ 0 1 "ABC234"
      ⟨[], [], []⟩ (by decide)

/-- Claim C7 counterexample: the code generators of app.py are bare
while True loops with no retry cap. With every candidate code taken,
the loop is still running after 1000 draws instead of having failed
fast; with 60 colliding draws followed by a free candidate it succeeds
on draw 61 rather than failing after about 50 attempts. -/
theorem code_gen_no_retry_cap :
    code_gen_loop (fun _ => true) (fun _ => "999999") 1000 0 = none ∧
    code_gen_loop (fun c => c == "AAAAAA")
      (fun i => if i < 60 then "AAAAAA" else "BBBBBB") 100 0 = some "BBBBBB" := by
  constructor
  · set_option maxRecDepth 16384 in decide
  · set_option maxRecDepth 16384 in decide

/-- Claim C7 amended: the generator re-rolls on collision with an
existing record and returns the first candidate not already taken; it
has no retry cap — when every candidate code is taken the loop never
returns, within any number of iterations, rather than failing fast. -/
theorem code_gen_first_free :
    (∀ (existsCode : String → Bool) (stream : Nat → String) (fuel i : Nat),
      (∀ c, existsCode c = true) →
      code_gen_loop existsCode stream fuel i = none) ∧
    (∀ (existsCode : String → Bool) (stream : Nat → String) (n fuel i : Nat),
      (∀ j, j < n → existsCode (stream (i + j)) = true) →
      existsCode (stream (i + n)) = false → n < fuel →
      code_gen_loop existsCode stream fuel i = some (stream (i + n))) := by
  constructor
  · intro ex st fuel
    induction fuel with
    | zero => intro i _; rfl
    | succ fuel ih =>
      intro i h
      simp only [code_gen_loop, h (st i), if_true]
      exact ih (i + 1) h
  · intro ex st n
    induction n with
    | zero =>
      intro fuel i hcol hfree hfuel
      cases fuel with
      | zero => exact absurd hfuel (by omega)
      | succ fuel =>
        rw [Nat.add_zero] at hfree
        simp [code_gen_loop, hfree]
    | succ n ih =>
      intro fuel i hcol hfree hfuel
      cases fuel with
      | zero => exact absurd hfuel (by omega)
      | succ fuel =>
        have h0 : ex (st i) = true := by
          have hh := hcol 0 (by omega)
          simpa using hh
        simp only [code_gen_loop, h0, if_true]
        have harr : i + (n + 1) = (i + 1) + n := by omega
        rw [harr] at hfree ⊢
        refine ih fuel (i + 1) ?_ hfree (by omega)
        intro j hj
        have hh := hcol (j + 1) (by omega)
        have he : i + (j + 1) = (i + 1) + j := by omega
        rw [he] at hh
        exact hh

theorem code_gen_first_free_witness :
    code_gen_loop (fun c => c == "AAAAAA")
      (fun i => if i < 3 then "AAAAAA" else "CCCCCC") 10 0 = some "CCCCCC" := by
  have h := code_gen_first_free.2 (fun c => c == "AAAAAA")
    (fun i => if i < 3 then "AAAAAA" else "CCCCCC") 3 10 0
    (by decide) (by decide) (by omega)
  simpa using h

/-- Claim C3: a consumption request arriving at or after createdAt
plus 24 hours yields Expired regardless of remaining quota, and that
request deletes the record metadata and the payload: for downloads the
row is gone and the blob removed, for raw paste views the row is gone
(the paste payload lives inline in the row). -/
theorem consume_after_ttl_expires :
    (∀ now code s r, findFile code s = some r → now ≥ r.createdAt + ttl →
      (download_file now code s).1 = DlResult.expired ∧
      (∀ r2 ∈ ((download_file now code s).2.1).files, r2.id ≠ r.id) ∧
      blobName code r.filename ∉ ((download_file now code s).2.1).blobs) ∧
    (∀ now code s p, findPaste code s = some p → now ≥ p.createdAt + ttl →
      (raw_paste now code s).1 = RawResult.expired ∧
      ∀ p2 ∈ ((raw_paste now code s).2).pastes, p2.id ≠ p.id) := by
  constructor
  · intro now code s r hf hexp
    have hd : download_file now code s =
        (DlResult.expired,
         deleteFileById r.id (removeBlob (blobName code r.filename) s), none) := by
      simp only [download_file, hf]
      rw [if_pos (Or.inl hexp)]
    rw [hd]
    refine ⟨rfl, ?_, ?_⟩
    · intro r2 h2
      have h3 : r2 ∈ (s.files.filter (fun x => x.id != r.id)) := h2
      have h4 := (List.mem_filter.mp h3).2
      simpa using h4
    · intro hb
      have hb2 : blobName code r.filename ∈
          (s.blobs.filter (fun b => b != blobName code r.filename)) := hb
      have h4 := (List.mem_filter.mp hb2).2
      simp at h4
  · intro now code s p hf hexp
    have hd : raw_paste now code s =
        (RawResult.expired, deletePasteById p.id s) := by
      simp only [raw_paste, hf]
      rw [if_pos (Or.inl hexp)]
    rw [hd]
    refine ⟨rfl, ?_⟩
    intro p2 h2
    have h3 : p2 ∈ (s.pastes.filter (fun x => x.id != p.id)) := h2
    have h4 := (List.mem_filter.mp h3).2
    simpa using h4

theorem consume_after_ttl_expires_witness :
    (download_file 90000 "123456" exhaustedFileStore).1 = DlResult.expired := by
  have h := (consume_after_ttl_expires.1 90000 "123456" exhaustedFileStore
    ⟨1, "123456", "a.txt", 0, 1, 1⟩ (by decide) (by decide)).1
  exact h

/-- Claim C1 counterexample: in a store whose only file record has
currentDownloads equal to maxDownloads (quota exhausted) with its blob
intact and within the TTL window, download_file still serves the
payload instead of reporting Expired or NotFound. -/
theorem download_serves_exhausted_quota :
    findFile "123456" exhaustedFileStore =
      some ⟨1, "123456", "a.txt", 0, 1, 1⟩ ∧
    (download_file 0 "123456" exhaustedFileStore).1 =
      DlResult.served "123456_a.txt" := by
  constructor
  · decide
  · decide

/-- Claim C1 amended: pastes behave as claimed — view_paste and
raw_paste serve exactly when now is before createdAt plus 24 hours and
currentViews is below maxViews, so an exhausted paste is reported as
expired rather than served; file downloads perform no quota check —
download_file serves exactly when the record exists, now is before
createdAt plus 24 hours, and the blob exists, regardless of how
currentDownloads compares to maxDownloads. -/
theorem consume_visibility_conditions :
    (∀ now code s row, findPaste code s = some row →
      (((view_paste now code s).1).isServed = true ↔
        (now < row.createdAt + ttl ∧ row.currentViews < row.maxViews))) ∧
    (∀ now code s row, findPaste code s = some row →
      (((raw_paste now code s).1).isServed = true ↔
        (now < row.createdAt + ttl ∧ row.currentViews < row.maxViews))) ∧
    (∀ now code s row, findFile code s = some row →
      (((download_file now code s).1).isServed = true ↔
        (now < row.createdAt + ttl ∧
         blobExists (blobName code row.filename) s = true))) := by
  refine ⟨?_, ?_, ?_⟩
  · intro now code s row hf
    simp only [view_paste, hf]
    by_cases hcond : now ≥ row.createdAt + ttl ∨ row.currentViews ≥ row.maxViews
    · rw [if_pos hcond]
      simp only [PasteResult.isServed]
      constructor
      · intro hh; exact absurd hh (by simp)
      · rintro ⟨h1, h2⟩; exfalso; omega
    · rw [if_neg hcond]
      push_neg at hcond
      simp only [PasteResult.isServed]
      constructor
      · intro _; exact hcond
      · intro _; trivial
  · intro now code s row hf
    simp only [raw_paste, hf]
    by_cases hcond : now ≥ row.createdAt + ttl ∨ row.currentViews ≥ row.maxViews
    · rw [if_pos hcond]
      simp only [RawResult.isServed]
      constructor
      · intro hh; exact absurd hh (by simp)
      · rintro ⟨h1, h2⟩; exfalso; omega
    · rw [if_neg hcond]
      push_neg at hcond
      simp only [RawResult.isServed]
      constructor
      · intro _; exact hcond
      · intro _; trivial
  · intro now code s row hf
    simp only [download_file, hf]
    by_cases hcond : now ≥ row.createdAt + ttl ∨
        blobExists (blobName code row.filename) s = false
    · rw [if_pos hcond]
      simp only [DlResult.isServed]
      constructor
      · intro hh; exact absurd hh (by simp)
      · rintro ⟨h1, h2⟩
        exfalso
        rcases hcond with hc | hc
        · omega
        · rw [h2] at hc; exact absurd hc (by simp)
    · rw [if_neg hcond]
      push_neg at hcond
      obtain ⟨h1, h2⟩ := hcond
      have h2t : blobExists (blobName code row.filename) s = true := by
        revert h2; cases blobExists (blobName code row.filename) s <;> simp
      constructor
      · intro _; exact ⟨h1, h2t⟩
      · intro _
        split
        · rfl
        · rfl

theorem consume_visibility_conditions_witness :
    ((view_paste 0 "ABC234" singleUsePasteStore).1).isServed = true ∧
    ((download_file 0 "123456" exhaustedFileStore).1).isServed = true := by
  have h := consume_visibility_conditions
  constructor
  · exact (h.1 0 "ABC234" singleUsePasteStore
      ⟨1, "ABC234", "hello", "plaintext", 0, 1, 0⟩ (by decide)).mpr
      ⟨by decide, by decide⟩
  · exact (h.2.2 0 "123456" exhaustedFileStore
      ⟨1, "123456", "a.txt", 0, 1, 1⟩ (by decide)).mpr ⟨by decide, by decide⟩

/-- Claim C2 counterexample: the increment-and-decision of view_paste
is two separate database steps (a SELECT with the expiry and quota
check, then an UPDATE writing an absolute count); for a paste with
maxViews 1, the interleaving read-read-write-write of two concurrent
requests yields two Served outcomes. -/
theorem concurrent_double_serve :
    (runSched 0 "ABC234" [0, 1, 0, 1]
      (singleUsePasteStore, [ReqPhase.start, ReqPhase.start])).2 =
      [ReqPhase.done (PasteResult.served "hello" "plaintext"),
       ReqPhase.done (PasteResult.served "hello" "plaintext")] := by
  decide

/-- Claim C2 amended: consumption attempts that are serialized (each
request completing before the next begins) never exceed a maxViews 1
quota — at most one of two sequential view_paste calls is Served; the
atomic-step claim itself fails, because the read and the write are
separate steps and the interleaved schedule serves twice. -/
theorem sequential_single_use (s : StoreState) (code : String)
    (p : PasteRecord) (now1 now2 : Nat)
    (hf : findPaste code s = some p) (hmax : p.maxViews = 1)
    (hnn : 0 ≤ p.currentViews) :
    ¬ (((view_paste now1 code s).1).isServed = true ∧
       ((view_paste now2 code ((view_paste now1 code s).2)).1).isServed = true) := by
  rintro ⟨h1, h2⟩
  by_cases hcond : now1 ≥ p.createdAt + ttl ∨ p.currentViews ≥ p.maxViews
  · simp only [view_paste, hf] at h1
    rw [if_pos hcond] at h1
    simp [PasteResult.isServed] at h1
  · have hst : (view_paste now1 code s).2 =
        setPasteViews p.id (p.currentViews + 1) s := by
      simp only [view_paste, hf]
      rw [if_neg hcond]
    rw [hst] at h2
    have hf2 : findPaste code (setPasteViews p.id (p.currentViews + 1) s) =
        some { p with currentViews := p.currentViews + 1 } :=
      findPaste_after_set s.pastes code p (p.currentViews + 1) hf
    push_neg at hcond
    obtain ⟨hn1, hn2⟩ := hcond
    have hge : ({ p with currentViews := p.currentViews + 1 } : PasteRecord).currentViews ≥
        ({ p with currentViews := p.currentViews + 1 } : PasteRecord).maxViews := by
      show p.currentViews + 1 ≥ p.maxViews
      omega
    simp only [view_paste, hf2] at h2
    rw [if_pos (Or.inr hge)] at h2
    simp [PasteResult.isServed] at h2

theorem sequential_single_use_witness :
    ¬ (((view_paste 0 "ABC234" singleUsePasteStore).1).isServed = true ∧
       ((view_paste 0 "ABC234"
          ((view_paste 0 "ABC234" singleUsePasteStore).2)).1).isServed = true) :=
  sequential_single_use singleUsePasteStore "ABC234"
    ⟨1, "ABC234", "hello", "plaintext", 0, 1, 0⟩ 0 0 (by decide) (by decide)
    (by decide)

/-- Claim C4 counterexample: the paste view that exhausts the quota
deletes nothing, immediately or deferred — after serving a maxViews 1
paste, the row is still present with currentViews 1, so a subsequent
request does find the record. -/
theorem paste_exhaustion_not_deleted :
    ((view_paste 0 "ABC234" singleUsePasteStore).1).isServed = true ∧
    findPaste "ABC234" ((view_paste 0 "ABC234" singleUsePasteStore).2) =
      some ⟨1, "ABC234", "hello", "plaintext", 0, 1, 1⟩ := by
  constructor
  · decide
  · decide

/-- Claim C4 amended: for file downloads the claim holds — a download
whose post-increment count reaches maxDownloads schedules a deferred
deletion which, once run, removes the record and the blob (and blob
removal tolerates an already-missing blob), so a subsequent download
of that code reports NotFound; for paste views it does not — the
exhausting view leaves the row in place with currentViews equal to
maxViews, and it is the next consumption attempt that deletes the row
and reports the paste gone. -/
theorem exhaustion_deletion_behavior :
    (∀ now code s r, findFile code s = some r →
      ¬ (now ≥ r.createdAt + ttl) →
      blobExists (blobName code r.filename) s = true →
      r.currentDownloads + 1 ≥ r.maxDownloads →
      download_file now code s =
        (DlResult.served (blobName code r.filename),
         setFileDownloads r.id (r.currentDownloads + 1) s,
         some ⟨r.id, blobName code r.filename⟩) ∧
      (∀ r2 ∈ (run_deferred ⟨r.id, blobName code r.filename⟩
          (setFileDownloads r.id (r.currentDownloads + 1) s)).files,
        r2.id ≠ r.id) ∧
      blobName code r.filename ∉ (run_deferred ⟨r.id, blobName code r.filename⟩
          (setFileDownloads r.id (r.currentDownloads + 1) s)).blobs ∧
      ((∀ r2 ∈ s.files, r2.code = code → r2.id = r.id) → ∀ now2,
        (download_file now2 code (run_deferred ⟨r.id, blobName code r.filename⟩
          (setFileDownloads r.id (r.currentDownloads + 1) s))).1 =
          DlResult.notFound)) ∧
    (∀ d s, run_deferred d (removeBlob d.path s) = run_deferred d s) ∧
    (∀ now code s p, findPaste code s = some p →
      ¬ (now ≥ p.createdAt + ttl) → p.currentViews < p.maxViews →
      p.currentViews + 1 ≥ p.maxViews →
      (view_paste now code s).1 = PasteResult.served p.content p.lang ∧
      findPaste code ((view_paste now code s).2) =
        some { p with currentViews := p.currentViews + 1 } ∧
      (∀ now2,
        (view_paste now2 code ((view_paste now code s).2)).1 =
          PasteResult.expired)) := by
  refine ⟨?_, ?_, ?_⟩
  · intro now code s r hf hnt hblob hq
    have hnc : ¬ (now ≥ r.createdAt + ttl ∨
        blobExists (blobName code r.filename) s = false) := by
      rintro (hc | hc)
      · exact hnt hc
      · rw [hblob] at hc; exact absurd hc (by simp)
    have hd : download_file now code s =
        (DlResult.served (blobName code r.filename),
         setFileDownloads r.id (r.currentDownloads + 1) s,
         some ⟨r.id, blobName code r.filename⟩) := by
      simp only [download_file, hf]
      rw [if_neg hnc, if_pos hq]
    refine ⟨hd, ?_, ?_, ?_⟩
    · intro r2 h2
      have h3 : r2 ∈ ((setFileDownloads r.id (r.currentDownloads + 1) s).files.filter
          (fun x => x.id != r.id)) := h2
      have h4 := (List.mem_filter.mp h3).2
      simpa using h4
    · intro hb
      have hb2 : blobName code r.filename ∈
          ((setFileDownloads r.id (r.currentDownloads + 1) s).blobs.filter
            (fun b => b != blobName code r.filename)) := hb
      have h4 := (List.mem_filter.mp hb2).2
      simp at h4
    · intro huniq now2
      have hnone : findFile code (run_deferred ⟨r.id, blobName code r.filename⟩
          (setFileDownloads r.id (r.currentDownloads + 1) s)) = none := by
        show ((setFileDownloads r.id (r.currentDownloads + 1) s).files.filter
          (fun x => x.id != r.id)).find? (fun x => x.code == code) = none
        refine find?_filter_none _ _ _ ?_
        intro a ha hcode
        rcases setFileDownloads_mem_cases r.id (r.currentDownloads + 1) s a ha with
          ⟨b, hb, hab⟩
        have hacode : a.code = code := by simpa using hcode
        have haid : a.id = r.id := by
          rcases hab with heq | ⟨hbid, heq⟩
          · rw [heq] at hacode ⊢
            exact huniq b hb hacode
          · rw [heq]
            exact hbid
        simp [haid]
      simp only [download_file, hnone]
  · intro d s
    show deleteFileById d.fid (removeBlob d.path (removeBlob d.path s)) =
      deleteFileById d.fid (removeBlob d.path s)
    have hrr : removeBlob d.path (removeBlob d.path s) = removeBlob d.path s := by
      show (⟨s.files, s.pastes, (s.blobs.filter (fun b => b != d.path)).filter
        (fun b => b != d.path)⟩ : StoreState) = ⟨s.files, s.pastes,
        s.blobs.filter (fun b => b != d.path)⟩
      rw [filter_idem]
    rw [hrr]
  · intro now code s p hf hnt hlt hq
    have hnc : ¬ (now ≥ p.createdAt + ttl ∨ p.currentViews ≥ p.maxViews) := by
      rintro (hc | hc)
      · exact hnt hc
      · omega
    have hv : view_paste now code s =
        (PasteResult.served p.content p.lang,
         setPasteViews p.id (p.currentViews + 1) s) := by
      simp only [view_paste, hf]
      rw [if_neg hnc]
    have hf2 : findPaste code (setPasteViews p.id (p.currentViews + 1) s) =
        some { p with currentViews := p.currentViews + 1 } :=
      findPaste_after_set s.pastes code p (p.currentViews + 1) hf
    refine ⟨by rw [hv], ?_, ?_⟩
    · rw [hv]
      exact hf2
    · intro now2
      have hge : ({ p with currentViews := p.currentViews + 1 } : PasteRecord).currentViews ≥
          ({ p with currentViews := p.currentViews + 1 } : PasteRecord).maxViews := by
        show p.currentViews + 1 ≥ p.maxViews
        exact hq
      rw [hv]
      simp only [view_paste, hf2]
      rw [if_pos (Or.inr hge)]

theorem exhaustion_deletion_behavior_witness :
    download_file 0 "123456" freshFileStore =
      (DlResult.served "123456_a.txt", setFileDownloads 1 1 freshFileStore,
       some ⟨1, "123456_a.txt"⟩) := by
  have h := (exhaustion_deletion_behavior.1 0 "123456" freshFileStore
    ⟨1, "123456", "a.txt", 0, 1, 0⟩ (by decide) (by decide) (by decide)
    (by decide)).1
  exact h

/-- Claim C6: one sweep pass removes every record past TTL (files and
pastes), removes every file record whose blob is missing, and on an
already-consistent store — every record within TTL and every file blob
intact — deletes nothing. -/
theorem cleanup_pass_spec :
    (∀ now s r, r ∈ s.files → now ≥ r.createdAt + ttl →
      ∀ r2 ∈ (cleanup_pass now s).files, r2.id ≠ r.id) ∧
    (∀ now s r, r ∈ s.files →
      blobExists (blobName r.code r.filename) s = false →
      ∀ r2 ∈ (cleanup_pass now s).files, r2.id ≠ r.id) ∧
    (∀ now s p, p ∈ s.pastes → now ≥ p.createdAt + ttl →
      ∀ p2 ∈ (cleanup_pass now s).pastes, p2.id ≠ p.id) ∧
    (∀ now s, (∀ r ∈ s.files, now < r.createdAt + ttl ∧
        blobExists (blobName r.code r.filename) s = true) →
      (∀ p ∈ s.pastes, now < p.createdAt + ttl) →
      cleanup_pass now s = s) := by
  refine ⟨?_, ?_, ?_, ?_⟩
  · intro now s r hr hexp r2 h2
    have hfe : (cleanup_pass now s).files =
        (cleanup_files now s.files s).files := by
      simp only [cleanup_pass]
      exact cleanup_pastes_files_eq _ _ _
    rw [hfe] at h2
    exact cleanup_files_expired_del now s.files s r hr hexp r2 h2
  · intro now s r hr hmiss r2 h2
    have hfe : (cleanup_pass now s).files =
        (cleanup_files now s.files s).files := by
      simp only [cleanup_pass]
      exact cleanup_pastes_files_eq _ _ _
    rw [hfe] at h2
    exact cleanup_files_missing_del now s.files s r hr hmiss r2 h2
  · intro now s p hp hexp p2 h2
    have hpe : p ∈ (cleanup_files now s.files s).pastes := by
      rw [cleanup_files_pastes_eq]
      exact hp
    simp only [cleanup_pass] at h2
    exact cleanup_pastes_expired_del now
      (cleanup_files now s.files s).pastes (cleanup_files now s.files s) p hpe
      hexp p2 h2
  · intro now s hfok hpok
    have h1 : cleanup_files now s.files s = s := cleanup_files_noop _ _ _ hfok
    simp only [cleanup_pass, h1]
    exact cleanup_pastes_noop _ _ _ hpok

theorem cleanup_pass_spec_witness :
    cleanup_pass 0 freshFileStore = freshFileStore :=
  cleanup_pass_spec.2.2.2 0 freshFileStore (by decide) (by decide)

/-- Claim C8 counterexample: in a sweep over two TTL-expired records
where deleting the first row hits a database error, the pass aborts at
that record — the second record is not processed in the same pass
(both metadata rows are still present and the loop reports the abort),
contradicting continue-to-the-next-record-in-the-same-pass. -/
theorem sweep_db_error_aborts_pass :
    (90000 : Nat) ≥ 0 + ttl ∧
    ((cleanup_files_faulty 90000 twoExpiredFaultRows twoExpiredFilesStore).1).files =
      twoExpiredFilesStore.files ∧
    (cleanup_files_faulty 90000 twoExpiredFaultRows twoExpiredFilesStore).2 =
      true := by
  refine ⟨by decide, by decide, by decide⟩

/-- Claim C8 amended: the sweeper never crashes the process — the
pass-level handler absorbs any exception, and the next interval runs
again. A failure of os.remove on one record is swallowed per-record:
the pass continues to the next record (and still deletes the metadata
of the failed one). A database failure while deleting a record aborts
the remainder of that pass; those records are only retried on the next
interval, where a clean pass removes every expired record. -/
theorem sweep_fault_tolerance :
    (∀ now rows s, (∀ e ∈ rows, e.2 ≠ some SweepFault.dbErr) →
      (cleanup_files_faulty now rows s).2 = false ∧
      ∀ e ∈ rows, now ≥ e.1.createdAt + ttl →
        ∀ r2 ∈ ((cleanup_files_faulty now rows s).1).files, r2.id ≠ e.1.id) ∧
    (∀ now r rest s, now ≥ r.createdAt + ttl →
      cleanup_files_faulty now ((r, some SweepFault.dbErr) :: rest) s =
        (removeBlob (blobName r.code r.filename) s, true)) ∧
    (∀ now rows s, rows.map Prod.fst = s.files →
      (s.files.map FileRecord.id).Nodup →
      ∀ r ∈ s.files, now ≥ r.createdAt + ttl →
        ∀ r2 ∈ (cleanup_files now
            (((cleanup_files_faulty now rows s).1).files)
            ((cleanup_files_faulty now rows s).1)).files,
          r2.id ≠ r.id) := by
  refine ⟨?_, ?_, ?_⟩
  · intro now rows s hnf
    exact cleanup_files_faulty_no_db now rows s hnf
  · intro now r rest s hexp
    exact cleanup_files_faulty_db_aborts now r rest s hexp
  · intro now rows s hsnap hnd r hr hexp r2 h2
    by_cases hin : ∃ r3 ∈ ((cleanup_files_faulty now rows s).1).files, r3.id = r.id
    · obtain ⟨r3, hr3, hr3id⟩ := hin
      have hr3s : r3 ∈ s.files := cleanup_files_faulty_files_mem now rows s r3 hr3
      have hr3r : r3 = r :=
        List.inj_on_of_nodup_map hnd hr3s hr hr3id
      rw [hr3r] at hr3
      exact cleanup_files_expired_del now _ _ r hr3 hexp r2 h2
    · intro heq
      exact hin ⟨r2, cleanup_files_files_mem now _ _ r2 h2, heq⟩

theorem sweep_fault_tolerance_witness :
    cleanup_files_faulty 90000
      [(⟨1, "111111", "a", 0, 1, 0⟩, some SweepFault.dbErr)]
      twoExpiredFilesStore =
      (removeBlob "111111_a" twoExpiredFilesStore, true) := by
  have h := sweep_fault_tolerance.2.1 90000 ⟨1, "111111", "a", 0, 1, 0⟩ []
    twoExpiredFilesStore (by decide)
  exact h

/-- Claim C9: every update a consumption handler applies to a
surviving record changes only its usage counter, by exactly one: after
download_file, view_paste, or raw_paste, each record in the post-state
corresponds to a pre-state record with the same id, code, payload
reference fields (filename, or content and lang), creation time, and
max-uses, and a usage counter equal to the old value or the old value
plus one. -/
theorem updates_only_usage_counter :
    (∀ now code s, (s.files.map FileRecord.id).Nodup →
      ∀ r2 ∈ ((download_file now code s).2.1).files, ∃ r1 ∈ s.files,
        r2.id = r1.id ∧ r2.code = r1.code ∧ r2.filename = r1.filename ∧
        r2.createdAt = r1.createdAt ∧ r2.maxDownloads = r1.maxDownloads ∧
        (r2.currentDownloads = r1.currentDownloads ∨
         r2.currentDownloads = r1.currentDownloads + 1)) ∧
    (∀ now code s, (s.pastes.map PasteRecord.id).Nodup →
      ∀ p2 ∈ ((view_paste now code s).2).pastes, ∃ p1 ∈ s.pastes,
        p2.id = p1.id ∧ p2.code = p1.code ∧ p2.content = p1.content ∧
        p2.lang = p1.lang ∧ p2.createdAt = p1.createdAt ∧
        p2.maxViews = p1.maxViews ∧
        (p2.currentViews = p1.currentViews ∨
         p2.currentViews = p1.currentViews + 1)) ∧
    (∀ now code s, (s.pastes.map PasteRecord.id).Nodup →
      ∀ p2 ∈ ((raw_paste now code s).2).pastes, ∃ p1 ∈ s.pastes,
        p2.id = p1.id ∧ p2.code = p1.code ∧ p2.content = p1.content ∧
        p2.lang = p1.lang ∧ p2.createdAt = p1.createdAt ∧
        p2.maxViews = p1.maxViews ∧
        (p2.currentViews = p1.currentViews ∨
         p2.currentViews = p1.currentViews + 1)) := by
  refine ⟨?_, ?_, ?_⟩
  · intro now code s hnd r2 h2
    cases hf : findFile code s with
    | none =>
      simp only [download_file, hf] at h2
      exact ⟨r2, h2, rfl, rfl, rfl, rfl, rfl, Or.inl rfl⟩
    | some row =>
      have hrow : row ∈ s.files := List.mem_of_find?_eq_some hf
      simp only [download_file, hf] at h2
      by_cases hcond : now ≥ row.createdAt + ttl ∨
          blobExists (blobName code row.filename) s = false
      · rw [if_pos hcond] at h2
        have h3 : r2 ∈ (s.files.filter (fun x => x.id != row.id)) := h2
        have h4 := (List.mem_filter.mp h3).1
        exact ⟨r2, h4, rfl, rfl, rfl, rfl, rfl, Or.inl rfl⟩
      · rw [if_neg hcond] at h2
        have h3 : r2 ∈ (setFileDownloads row.id (row.currentDownloads + 1) s).files := by
          split at h2
          · exact h2
          · exact h2
        rcases setFileDownloads_mem_cases row.id (row.currentDownloads + 1) s r2 h3 with
          ⟨r1, hr1, hab⟩
        refine ⟨r1, hr1, ?_⟩
        rcases hab with heq | ⟨hid, heq⟩
        · rw [heq]
          exact ⟨rfl, rfl, rfl, rfl, rfl, Or.inl rfl⟩
        · have hr1row : r1 = row :=
            List.inj_on_of_nodup_map hnd hr1 hrow hid

          rw [heq, hr1row]
          exact ⟨rfl, rfl, rfl, rfl, rfl, Or.inr rfl⟩
  · intro now code s hnd p2 h2
    cases hf : findPaste code s with
    | none =>
      simp only [view_paste, hf] at h2
      exact ⟨p2, h2, rfl, rfl, rfl, rfl, rfl, rfl, Or.inl rfl⟩
    | some row =>
      have hrow : row ∈ s.pastes := List.mem_of_find?_eq_some hf
      simp only [view_paste, hf] at h2
      by_cases hcond : now ≥ row.createdAt + ttl ∨
          row.currentViews ≥ row.maxViews
      · rw [if_pos hcond] at h2
        have h3 : p2 ∈ (s.pastes.filter (fun x => x.id != row.id)) := h2
        have h4 := (List.mem_filter.mp h3).1
        exact ⟨p2, h4, rfl, rfl, rfl, rfl, rfl, rfl, Or.inl rfl⟩
      · rw [if_neg hcond] at h2
        have h3 : p2 ∈ (setPasteViews row.id (row.currentViews + 1) s).pastes := h2
        rcases setPasteViews_mem_cases row.id (row.currentViews + 1) s p2 h3 with
          ⟨p1, hp1, hab⟩
        refine ⟨p1, hp1, ?_⟩
        rcases hab with heq | ⟨hid, heq⟩
        · rw [heq]
          exact ⟨rfl, rfl, rfl, rfl, rfl, rfl, Or.inl rfl⟩
        · have hp1row : p1 = row :=
            List.inj_on_of_nodup_map hnd hp1 hrow hid
          rw [heq, hp1row]
          exact ⟨rfl, rfl, rfl, rfl, rfl, rfl, Or.inr rfl⟩
  · intro now code s hnd p2 h2
    cases hf : findPaste code s with
    | none =>
      simp only [raw_paste, hf] at h2
      exact ⟨p2, h2, rfl, rfl, rfl, rfl, rfl, rfl, Or.inl rfl⟩
    | some row =>
      have hrow : row ∈ s.pastes := List.mem_of_find?_eq_some hf
      simp only [raw_paste, hf] at h2
      by_cases hcond : now ≥ row.createdAt + ttl ∨
          row.currentViews ≥ row.maxViews
      · rw [if_pos hcond] at h2
        have h3 : p2 ∈ (s.pastes.filter (fun x => x.id != row.id)) := h2
        have h4 := (List.mem_filter.mp h3).1
        exact ⟨p2, h4, rfl, rfl, rfl, rfl, rfl, rfl, Or.inl rfl⟩
      · rw [if_neg hcond] at h2
        have h3 : p2 ∈ (setPasteViews row.id (row.currentViews + 1) s).pastes := h2
        rcases setPasteViews_mem_cases row.id (row.currentViews + 1) s p2 h3 with
          ⟨p1, hp1, hab⟩
        refine ⟨p1, hp1, ?_⟩
        rcases hab with heq | ⟨hid, heq⟩
        · rw [heq]
          exact ⟨rfl, rfl, rfl, rfl, rfl, rfl, Or.inl rfl⟩
        · have hp1row : p1 = row :=
            List.inj_on_of_nodup_map hnd hp1 hrow hid
          rw [heq, hp1row]
          exact ⟨rfl, rfl, rfl, rfl, rfl, rfl, Or.inr rfl⟩

theorem updates_only_usage_counter_witness :
    ∃ p1 ∈ singleUsePasteStore.pastes,
      (⟨1, "ABC234", "hello", "plaintext", 0, 1, 1⟩ : PasteRecord).id = p1.id ∧
      (⟨1, "ABC234", "hello", "plaintext", 0, 1, 1⟩ : PasteRecord).code = p1.code ∧
      (⟨1, "ABC234", "hello", "plaintext", 0, 1, 1⟩ : PasteRecord).content = p1.content ∧
      (⟨1, "ABC234", "hello", "plaintext", 0, 1, 1⟩ : PasteRecord).lang = p1.lang ∧
      (⟨1, "ABC234", "hello", "plaintext", 0, 1, 1⟩ : PasteRecord).createdAt = p1.createdAt ∧
      (⟨1, "ABC234", "hello", "plaintext", 0, 1, 1⟩ : PasteRecord).maxViews = p1.maxViews ∧
      ((⟨1, "ABC234", "hello", "plaintext", 0, 1, 1⟩ : PasteRecord).currentViews = p1.currentViews ∨
       (⟨1, "ABC234", "hello", "plaintext", 0, 1, 1⟩ : PasteRecord).currentViews = p1.currentViews + 1) := by
  have h := updates_only_usage_counter.2.1 0 "ABC234" singleUsePasteStore
    (by decide) ⟨1, "ABC234", "hello", "plaintext", 0, 1, 1⟩ (by decide)
  exact h

end SendingInfo
